import Mathlib

/-!
Shallow embedding of `daraz_scraper.py`: the review-fetch loop
(`get_daraz_reviews`) and the sentiment/issue aggregation pipeline
(`analyze_reviews`), together with theorems about the stated properties.

External collaborators (the HTTP transport and the sentiment model) are
parameters: a page fetcher `Nat → Except Unit (List Review)` and a
classifier `String → Option Label`, where `Except.error` / `none` stand for
a raised exception.
-/

/-- One review record, as built by `get_daraz_reviews`: every field comes
from `item.get(...)` and may be absent (`None`). -/
structure Review where
  author : Option String
  rating : Option Nat
  date : Option String
  content : Option String
  likes : Option Nat
deriving DecidableEq, Repr

/-- Review with the given content and every other field absent. -/
def mkR (c : String) : Review :=
  { author := none, rating := none, date := none, content := some c, likes := none }

/-- Review whose content itself is absent (`None`). -/
def mkNoneR : Review :=
  { author := none, rating := none, date := none, content := none, likes := none }

/-- Sentiment label returned by the classifier pipeline. -/
inductive Label where
  | POSITIVE
  | NEGATIVE
  | NEUTRAL
deriving DecidableEq, Repr

/-! ### Substring matching (Python's `keyword in content`) -/

/-- `leadsWith p l` : the char list `l` starts with `p`. -/
def leadsWith : List Char → List Char → Bool
  | [], _ => true
  | _ :: _, [] => false
  | a :: as, b :: bs => a == b && leadsWith as bs

/-- `occursIn needle hay` : `needle` occurs as a contiguous segment of
`hay` — Python's `needle in hay` on strings. -/
def occursIn (needle : List Char) : List Char → Bool
  | [] => needle.isEmpty
  | c :: t => leadsWith needle (c :: t) || occursIn needle t

/-- Lower-case a string character-wise (`content.lower()` on the ASCII
keyword alphabet this program uses). -/
def strLower (s : String) : String := ⟨s.data.map Char.toLower⟩

/-! ### Issue keyword taxonomy and first-match classification -/

/-- The `issue_keywords` table, in its declared (insertion) order. -/
def issueKeywords : List (String × List String) :=
  [("quality", ["quality", "poor", "cheap", "broken", "defective"]),
   ("delivery", ["delivery", "late", "slow", "shipping"]),
   ("price", ["price", "expensive", "overpriced"]),
   ("description", ["description", "different", "wrong"]),
   ("service", ["service", "customer", "support"])]

/-- `any(keyword in content for keyword in keywords)`. -/
def catMatches (content : String) (kws : List String) : Bool :=
  kws.any fun k => occursIn k.data content.data

/-- First category of the table whose keywords match, in table order —
the `for issue, keywords ... break` loop body. -/
def firstMatch : List (String × List String) → String → Option String
  | [], _ => none
  | (issue, kws) :: rest, content =>
    if catMatches content kws then some issue else firstMatch rest content

/-- Category attributed to a (lower-cased) content, if any. -/
def classifyIssue (content : String) : Option String :=
  firstMatch issueKeywords content

/-! ### The `issue_counts` defaultdict and Python's stable descending sort -/

/-- `issue_counts[k] += 1` on an insertion-ordered association list
(a Python dict keeps first-insertion order). -/
def incrKey : List (String × Nat) → String → List (String × Nat)
  | [], k => [(k, 1)]
  | (k', v) :: rest, k =>
    if k' == k then (k', v + 1) :: rest else (k', v) :: incrKey rest k

/-- Insert an entry into a count-descending list, before the first entry
whose count is `≤` its own: the earlier-inserted entry wins ties. -/
def insertDesc (x : String × Nat) : List (String × Nat) → List (String × Nat)
  | [] => [x]
  | y :: ys => if y.2 ≤ x.2 then x :: y :: ys else y :: insertDesc x ys

/-- Stable sort by count descending —
`sorted(issue_counts.items(), key=lambda x: x[1], reverse=True)`. -/
def sortDesc : List (String × Nat) → List (String × Nat)
  | [] => []
  | x :: xs => insertDesc x (sortDesc xs)

/-- Total of all counts in a tally. -/
def sumCounts (l : List (String × Nat)) : Nat :=
  (l.map (·.2)).sum

/-! ### Sentiment classification of one review -/

/-- Sentiment of one review: the body of the per-review `try` block.
`review['content'][:512]` raises when the content is absent, and a failing
classifier call raises; both land in `except: sentiments.append('NEUTRAL')`. -/
def sentimentOf (classify : String → Option Label) (r : Review) : Label :=
  match r.content with
  | none => Label.NEUTRAL
  | some c =>
    match classify (c.take 512) with
    | none => Label.NEUTRAL
    | some l => l

/-- The `sentiments` list accumulated by the classification loop. -/
def sentimentsOf (classify : String → Option Label) (reviews : List Review) : List Label :=
  reviews.map (sentimentOf classify)

/-- `negative_reviews = [r for r, s in zip(reviews, sentiments) if s == 'NEGATIVE']`. -/
def negativeReviewsOf (classify : String → Option Label) (reviews : List Review) : List Review :=
  ((reviews.zip (sentimentsOf classify reviews)).filterMap
    fun rs => if rs.2 == Label.NEGATIVE then some rs.1 else none)

/-! ### The issue-aggregation loop -/

/-- The `for review in negative_reviews` loop. `review['content'].lower()`
is outside any `try`: an absent content raises out of `analyze_reviews`,
modelled as `Except.error ()`. -/
def tallyGo (acc : List (String × Nat)) : List Review → Except Unit (List (String × Nat))
  | [] => Except.ok acc
  | r :: rest =>
    match r.content with
    | none => Except.error ()
    | some c =>
      match classifyIssue (strLower c) with
      | some issue => tallyGo (incrKey acc issue) rest
      | none => tallyGo acc rest

/-- Issue tally over the negative reviews of a review list. -/
def tallyOf (classify : String → Option Label) (reviews : List Review) :
    Except Unit (List (String × Nat)) :=
  tallyGo [] (negativeReviewsOf classify reviews)

/-! ### `analyze_reviews` -/

/-- Return value of `analyze_reviews`: the empty-input short circuit
(`{'stats': {'total': 0}, 'issues': {}, 'time_taken': 0}`, a stats dict
without sentiment keys) or the full result. -/
inductive AnalysisResult where
  | empty
  | full (total positive negative neutral : Nat) (issues : List (String × Nat))
deriving DecidableEq, Repr

/-- `analyze_reviews`, with the sentiment model as a parameter. -/
def analyzeReviews (classify : String → Option Label) (reviews : List Review) :
    Except Unit AnalysisResult :=
  if reviews.isEmpty then
    Except.ok AnalysisResult.empty
  else
    let sentiments := sentimentsOf classify reviews
    let pos := sentiments.countP (· == Label.POSITIVE)
    let neg := sentiments.countP (· == Label.NEGATIVE)
    let neu := reviews.length - pos - neg
    match tallyOf classify reviews with
    | Except.error e => Except.error e
    | Except.ok tl =>
      Except.ok (AnalysisResult.full reviews.length pos neg neu ((sortDesc tl).take 5))

/-! ### `get_daraz_reviews` -/

/-- The regex `-i(\d+)` matches at the head of this char list. -/
def pidAt : List Char → Bool
  | '-' :: 'i' :: c :: _ => c.isDigit
  | _ => false

/-- `re.search(r'-i(\d+)', url)` finds a match somewhere in the list. -/
def hasPidL : List Char → Bool
  | [] => false
  | c :: rest => pidAt (c :: rest) || hasPidL rest

/-- The URL contains a `-i<digits>` product-id pattern. -/
def hasProductId (url : String) : Bool := hasPidL url.data

/-- The page loop `for page in range(1, max_pages + 1)`, instrumented with
the number of fetch calls performed. Page `page` is fetched; on error the
page is skipped (`except: continue`); on success its items are appended and
an empty item list breaks the loop. -/
def fetchPages (fetch : Nat → Except Unit (List Review)) :
    Nat → Nat → List Review → List Review × Nat
  | 0, _, acc => (acc, 0)
  | fuel + 1, page, acc =>
    match fetch page with
    | Except.error _ =>
      let r := fetchPages fetch fuel (page + 1) acc
      (r.1, r.2 + 1)
    | Except.ok items =>
      if items.isEmpty then (acc ++ items, 1)
      else
        let r := fetchPages fetch fuel (page + 1) (acc ++ items)
        (r.1, r.2 + 1)

/-- `get_daraz_reviews`, with the paginated endpoint as a parameter. -/
def get_daraz_reviews (fetch : Nat → Except Unit (List Review))
    (url : String) (maxPages : Nat) : List Review :=
  if hasProductId url then (fetchPages fetch maxPages 1 []).1 else []

/-- Number of page fetches `get_daraz_reviews` performs. -/
def fetchCallCount (fetch : Nat → Except Unit (List Review))
    (url : String) (maxPages : Nat) : Nat :=
  if hasProductId url then (fetchPages fetch maxPages 1 []).2 else 0

/-! ### Helper lemmas -/

/-- POSITIVE matches and NEGATIVE matches are disjoint, so their counts
never exceed the list length. -/
lemma countP_pos_add_neg_le (l : List Label) :
    l.countP (· == Label.POSITIVE) + l.countP (· == Label.NEGATIVE) ≤ l.length := by
  induction l with
  | nil => simp
  | cons a l ih => cases a <;> simp [List.countP_cons] <;> omega

/-- Inversion of a successful full `analyzeReviews` run into the values
of its intermediate bindings. -/
lemma analyzeReviews_full_elim (classify : String → Option Label) (reviews : List Review)
    (t p n u : Nat) (iss : List (String × Nat))
    (h : analyzeReviews classify reviews = Except.ok (AnalysisResult.full t p n u iss)) :
    ∃ tl, tallyOf classify reviews = Except.ok tl ∧
      t = reviews.length ∧
      p = (sentimentsOf classify reviews).countP (· == Label.POSITIVE) ∧
      n = (sentimentsOf classify reviews).countP (· == Label.NEGATIVE) ∧
      u = reviews.length - p - n ∧
      iss = (sortDesc tl).take 5 := by
  unfold analyzeReviews at h
  cases hemp : reviews.isEmpty with
  | true => simp [hemp] at h
  | false =>
    simp only [hemp, Bool.false_eq_true, if_false] at h
    cases htl : tallyOf classify reviews with
    | error e => rw [htl] at h; simp at h
    | ok tl =>
      rw [htl] at h
      simp only [Except.ok.injEq, AnalysisResult.full.injEq] at h
      obtain ⟨h1, h2, h3, h4, h5⟩ := h
      exact ⟨tl, rfl, h1.symm, h2.symm, h3.symm, by omega, h5.symm⟩

/-- C1: the returned stats satisfy `positive + negative + neutral = total`,
`total` is the input length, and `neutral` is derived as
`total - positive - negative`. -/
theorem stats_sum_eq_total (classify : String → Option Label) (reviews : List Review)
    (t p n u : Nat) (iss : List (String × Nat))
    (h : analyzeReviews classify reviews = Except.ok (AnalysisResult.full t p n u iss)) :
    p + n + u = t ∧ t = reviews.length ∧ u = t - p - n := by
  obtain ⟨tl, -, ht, hp, hn, hu, -⟩ := analyzeReviews_full_elim classify reviews t p n u iss h
  have hle : p + n ≤ reviews.length := by
    rw [hp, hn]
    have h1 := countP_pos_add_neg_le (sentimentsOf classify reviews)
    have h2 : (sentimentsOf classify reviews).length = reviews.length :=
      List.length_map _ _
    omega
  omega

/-- Witness for C1 at a one-review input whose classification fails. -/
theorem stats_sum_eq_total_w :
    0 + 0 + 1 = 1 ∧ 1 = ([mkNoneR] : List Review).length ∧ 1 = 1 - 0 - 0 :=
  stats_sum_eq_total (fun _ => none) [mkNoneR] 1 0 0 1 [] (by rfl)

/-- Classification of one review fails: its content is absent, or the
classifier itself fails on the truncated text. -/
def classifyFails (classify : String → Option Label) (r : Review) : Prop :=
  r.content = none ∨ ∃ c, r.content = some c ∧ classify (c.take 512) = none

/-- C6: a review whose classification fails gets label NEUTRAL, and every
review of the batch still gets a label (the batch is never aborted). -/
theorem classify_failure_neutral (classify : String → Option Label) (reviews : List Review) :
    (sentimentsOf classify reviews).length = reviews.length ∧
    (∀ (i : Nat) (r : Review), reviews[i]? = some r →
      (sentimentsOf classify reviews)[i]? = some (sentimentOf classify r)) ∧
    (∀ (i : Nat) (r : Review), reviews[i]? = some r → classifyFails classify r →
      (sentimentsOf classify reviews)[i]? = some Label.NEUTRAL) := by
  refine ⟨List.length_map _ _, ?_, ?_⟩
  · intro i r hr
    simp [sentimentsOf, List.getElem?_map, hr]
  · intro i r hr hf
    have hbase : (sentimentsOf classify reviews)[i]? = some (sentimentOf classify r) := by
      simp [sentimentsOf, List.getElem?_map, hr]
    rw [hbase]
    rcases hf with hnone | ⟨c, hc, hcl⟩
    · simp [sentimentOf, hnone]
    · simp [sentimentOf, hc, hcl]

/-- Witness for C6: a failing classifier yields NEUTRAL at index 0. -/
theorem classify_failure_neutral_w :
    (sentimentsOf (fun _ => none) [mkR "bad"])[0]? = some Label.NEUTRAL :=
  (classify_failure_neutral (fun _ => none) [mkR "bad"]).2.2 0 (mkR "bad") rfl
    (Or.inr ⟨"bad", rfl, rfl⟩)

/-- C8: the classifier is called on exactly the first 512 characters of
the content, so contents agreeing on their first 512 characters get the
same label. -/
theorem truncation_512 (classify : String → Option Label) (r : Review) (c : String)
    (hc : r.content = some c) :
    sentimentOf classify r
      = (match classify (c.take 512) with
          | none => Label.NEUTRAL
          | some l => l) ∧
    ∀ r' c', r'.content = some c' → c.take 512 = c'.take 512 →
      sentimentOf classify r = sentimentOf classify r' := by
  constructor
  · simp [sentimentOf, hc]
  · intro r' c' hc' heq
    simp [sentimentOf, hc, hc', heq]

/-- Witness for C8 at a concrete review pair with equal truncations. -/
theorem truncation_512_w :
    sentimentOf (fun _ => some Label.POSITIVE) (mkR "ok product")
      = sentimentOf (fun _ => some Label.POSITIVE)
          { author := some "a", rating := some 5, date := none,
            content := some "ok product", likes := none } :=
  (truncation_512 (fun _ => some Label.POSITIVE) (mkR "ok product") "ok product" rfl).2
    { author := some "a", rating := some 5, date := none,
      content := some "ok product", likes := none } "ok product" rfl rfl

/-- Each `issue_counts[issue] += 1` raises the tally total by exactly 1. -/
lemma sumCounts_incrKey (acc : List (String × Nat)) (k : String) :
    sumCounts (incrKey acc k) = sumCounts acc + 1 := by
  induction acc with
  | nil => simp [incrKey, sumCounts]
  | cons hd tl ih =>
    obtain ⟨k', v⟩ := hd
    cases h : (k' == k) <;> simp [incrKey, h, sumCounts] at ih ⊢ <;> omega

/-- `firstMatch` returns the category right after a non-matching block,
when that category matches. -/
lemma firstMatch_append (content : String) :
    ∀ (L1 : List (String × List String)) (issue : String) (kws : List String)
      (L2 : List (String × List String)),
      (∀ p ∈ L1, catMatches content p.2 = false) →
      catMatches content kws = true →
      firstMatch (L1 ++ (issue, kws) :: L2) content = some issue := by
  intro L1
  induction L1 with
  | nil => intro issue kws L2 _ hm; simp [firstMatch, hm]
  | cons hd tl ih =>
    intro issue kws L2 hprior hm
    obtain ⟨s, ks⟩ := hd
    have h0 : catMatches content ks = false := hprior (s, ks) (by simp)
    simp only [List.cons_append, firstMatch, h0, Bool.false_eq_true, if_false]
    exact ih issue kws L2 (fun p hp => hprior p (by simp [hp])) hm

/-- C3: a content matching several categories is attributed to the first
matching category in the declared table order, and that attribution
increments exactly one issue count by exactly one. -/
theorem first_match_category (content : String) (L1 L2 : List (String × List String))
    (issue : String) (kws : List String) (acc : List (String × Nat))
    (hsplit : issueKeywords = L1 ++ (issue, kws) :: L2)
    (hprior : ∀ p ∈ L1, catMatches content p.2 = false)
    (hm : catMatches content kws = true) :
    classifyIssue content = some issue ∧
    sumCounts (incrKey acc issue) = sumCounts acc + 1 := by
  constructor
  · unfold classifyIssue
    rw [hsplit]
    exact firstMatch_append content L1 issue kws L2 hprior hm
  · exact sumCounts_incrKey acc issue

/-- Witness for C3: a content matching both `quality` and `price`
keywords is attributed to `quality`, the earlier category. -/
theorem first_match_category_w :
    classifyIssue "bad quality and high price" = some "quality" ∧
    sumCounts (incrKey [("delivery", 2)] "quality") = sumCounts [("delivery", 2)] + 1 :=
  first_match_category "bad quality and high price" []
    [("delivery", ["delivery", "late", "slow", "shipping"]),
     ("price", ["price", "expensive", "overpriced"]),
     ("description", ["description", "different", "wrong"]),
     ("service", ["service", "customer", "support"])]
    "quality" ["quality", "poor", "cheap", "broken", "defective"] [("delivery", 2)]
    rfl (fun p hp => absurd hp (List.not_mem_nil p)) (by decide)

/-- C7: a URL without the `-i<digits>` pattern yields the empty list, with
no page fetch performed, for every fetcher. -/
theorem no_product_id_empty (fetch : Nat → Except Unit (List Review)) (url : String)
    (maxPages : Nat) (h : hasProductId url = false) :
    get_daraz_reviews fetch url maxPages = [] ∧ fetchCallCount fetch url maxPages = 0 := by
  constructor <;> simp [get_daraz_reviews, fetchCallCount, h]

/-- Witness for C7 at a URL with no `-i<digits>` segment. -/
theorem no_product_id_empty_w :
    get_daraz_reviews (fun _ => Except.ok []) "https://www.daraz.pk/products/widget" 3 = [] ∧
    fetchCallCount (fun _ => Except.ok []) "https://www.daraz.pk/products/widget" 3 = 0 :=
  no_product_id_empty (fun _ => Except.ok []) "https://www.daraz.pk/products/widget" 3 (by decide)

/-- C5: a page whose fetch raises is skipped: the accumulated reviews are
unchanged, the loop resumes at the next page number, and only the one
extra fetch call is recorded — the error never propagates. -/
theorem error_page_skipped (fetch : Nat → Except Unit (List Review)) (fuel page : Nat)
    (acc : List Review) (h : fetch page = Except.error ()) :
    (fetchPages fetch (fuel + 1) page acc).1 = (fetchPages fetch fuel (page + 1) acc).1 ∧
    (fetchPages fetch (fuel + 1) page acc).2 = (fetchPages fetch fuel (page + 1) acc).2 + 1 := by
  constructor <;> simp [fetchPages, h]

/-- Witness for C5 with a fetcher that always raises. -/
theorem error_page_skipped_w :
    (fetchPages (fun _ => Except.error ()) 1 1 []).1
      = (fetchPages (fun _ => Except.error ()) 0 2 []).1 ∧
    (fetchPages (fun _ => Except.error ()) 1 1 []).2
      = (fetchPages (fun _ => Except.error ()) 0 2 []).2 + 1 :=
  error_page_skipped (fun _ => Except.error ()) 0 1 [] rfl

/-- If the first `ok []` page among `page, page+1, ...` is `page + k` and
the loop has fuel past it, exactly `k + 1` fetches happen. -/
lemma fetchPages_count (fetch : Nat → Except Unit (List Review)) :
    ∀ (k fuel page : Nat) (acc : List Review), k < fuel →
      fetch (page + k) = Except.ok [] →
      (∀ j, j < k → fetch (page + j) ≠ Except.ok []) →
      (fetchPages fetch fuel page acc).2 = k + 1 := by
  intro k
  induction k with
  | zero =>
    intro fuel page acc hf hk _
    cases fuel with
    | zero => omega
    | succ f =>
      rw [Nat.add_zero] at hk
      simp [fetchPages, hk]
  | succ k' ih =>
    intro fuel page acc hf hk hj
    cases fuel with
    | zero => omega
    | succ f =>
      have h0 : fetch page ≠ Except.ok [] := by
        have := hj 0 (Nat.succ_pos k')
        rwa [Nat.add_zero] at this
      have hk' : fetch (page + 1 + k') = Except.ok [] := by
        rw [show page + 1 + k' = page + (k' + 1) from by omega]
        exact hk
      have hj' : ∀ j, j < k' → fetch (page + 1 + j) ≠ Except.ok [] := by
        intro j hjj
        rw [show page + 1 + j = page + (j + 1) from by omega]
        exact hj (j + 1) (by omega)
      cases hfp : fetch page with
      | error e =>
        have hrec := ih f (page + 1) acc (by omega) hk' hj'
        simp [fetchPages, hfp, hrec]
      | ok items =>
        have hne : items.isEmpty = false := by
          cases items with
          | nil => exact absurd hfp h0
          | cons a l => rfl
        have hrec := ih f (page + 1) (acc ++ items) (by omega) hk' hj'
        simp [fetchPages, hfp, hne, hrec]

/-- C4: when page `p` is the first successfully fetched page with zero
items, exactly pages `1..p` are fetched — later pages are skipped even
below `maxPages`, and error pages before `p` do not trigger the stop. -/
theorem stop_on_empty_page (fetch : Nat → Except Unit (List Review)) (url : String)
    (m p : Nat) (hpid : hasProductId url = true) (h1 : 1 ≤ p) (hm : p ≤ m)
    (hp : fetch p = Except.ok [])
    (hq : ∀ q, 1 ≤ q → q < p → fetch q ≠ Except.ok []) :
    fetchCallCount fetch url m = p := by
  obtain ⟨k, rfl⟩ : ∃ k, p = k + 1 := ⟨p - 1, by omega⟩
  have hcount := fetchPages_count fetch k m 1 []
    (by omega)
    (by rw [show 1 + k = k + 1 from by omega]; exact hp)
    (fun j hjk => by
      rw [show 1 + j = j + 1 from by omega]
      exact hq (j + 1) (by omega) (by omega))
  simpa [fetchCallCount, hpid] using hcount

/-- Witness for C4: page 1 errors, page 2 is empty — 2 of 3 pages fetched. -/
theorem stop_on_empty_page_w :
    fetchCallCount (fun q => if q = 1 then Except.error () else Except.ok [])
      "thing-i12345.html" 3 = 2 :=
  stop_on_empty_page (fun q => if q = 1 then Except.error () else Except.ok [])
    "thing-i12345.html" 3 2 (by decide) (by omega) (by omega) rfl
    (fun q hq1 hq2 => by
      have hq : q = 1 := by omega
      subst hq
      simp)

/-- Inserting an entry adds its count to the tally total. -/
lemma sumCounts_insertDesc (x : String × Nat) (m : List (String × Nat)) :
    sumCounts (insertDesc x m) = x.2 + sumCounts m := by
  induction m with
  | nil => simp [insertDesc, sumCounts]
  | cons y ys ih =>
    by_cases h : y.2 ≤ x.2
    · simp [insertDesc, h, sumCounts] at ih ⊢
    · simp [insertDesc, h, sumCounts] at ih ⊢
      omega

/-- Sorting preserves the tally total. -/
lemma sumCounts_sortDesc (l : List (String × Nat)) :
    sumCounts (sortDesc l) = sumCounts l := by
  induction l with
  | nil => rfl
  | cons x xs ih =>
    show sumCounts (insertDesc x (sortDesc xs)) = sumCounts (x :: xs)
    rw [sumCounts_insertDesc, ih]
    simp [sumCounts]

/-- A prefix of a tally has a total at most the whole tally's. -/
lemma sumCounts_take_le (n : Nat) (l : List (String × Nat)) :
    sumCounts (l.take n) ≤ sumCounts l := by
  induction l generalizing n with
  | nil => simp
  | cons x xs ih =>
    cases n with
    | zero => simp [sumCounts]
    | succ n' =>
      rw [List.take_succ_cons]
      have h1 : sumCounts (x :: List.take n' xs) = x.2 + sumCounts (List.take n' xs) := by
        simp [sumCounts]
      have h2 : sumCounts (x :: xs) = x.2 + sumCounts xs := by
        simp [sumCounts]
      have h3 := ih n'
      omega

/-- The issue loop raises each tally total by at most one per review. -/
lemma tallyGo_sum_le : ∀ (L : List Review) (acc tl : List (String × Nat)),
    tallyGo acc L = Except.ok tl → sumCounts tl ≤ sumCounts acc + L.length := by
  intro L
  induction L with
  | nil =>
    intro acc tl h
    simp [tallyGo] at h
    simp [h.symm]
  | cons r rest ih =>
    intro acc tl h
    unfold tallyGo at h
    cases hc : r.content with
    | none =>
      simp only [hc] at h
      simp at h
    | some c =>
      simp only [hc] at h
      cases hci : classifyIssue (strLower c) with
      | some issue =>
        simp only [hci] at h
        have := ih (incrKey acc issue) tl h
        rw [sumCounts_incrKey] at this
        simp only [List.length_cons]
        omega
      | none =>
        simp only [hci] at h
        have := ih acc tl h
        simp only [List.length_cons]
        omega

/-- In `zip reviews (map f reviews)` every pair's second component is the
image of its first. -/
lemma pair_mem_zip_map (f : Review → Label) :
    ∀ (reviews : List Review) (x : Review) (y : Label),
      (x, y) ∈ reviews.zip (reviews.map f) → y = f x := by
  intro reviews
  induction reviews with
  | nil => intro x y h; simp at h
  | cons r rest ih =>
    intro x y h
    simp only [List.map_cons, List.zip_cons_cons, List.mem_cons, Prod.mk.injEq] at h
    rcases h with ⟨hx, hy⟩ | h
    · subst hx; exact hy
    · exact ih x y h

/-- Length of the NEGATIVE filter over `zip rs (map f rs)`. -/
lemma filterMap_zip_neg_length (f : Review → Label) :
    ∀ rs : List Review,
      (List.filterMap (fun p => if p.2 == Label.NEGATIVE then some p.1 else none)
        (rs.zip (rs.map f))).length
        = List.countP (fun r => f r == Label.NEGATIVE) rs := by
  intro rs
  induction rs with
  | nil => simp
  | cons r rest ih =>
    simp only [List.map_cons, List.zip_cons_cons, List.filterMap_cons, List.countP_cons]
    cases hs : (f r == Label.NEGATIVE) with
    | true =>
      simp [hs] at ih ⊢
      omega
    | false =>
      simp [hs] at ih ⊢
      omega

/-- The negative-review list counts exactly the NEGATIVE sentiments. -/
lemma length_negativeReviews (classify : String → Option Label) (reviews : List Review) :
    (negativeReviewsOf classify reviews).length
      = (sentimentsOf classify reviews).countP (· == Label.NEGATIVE) := by
  unfold negativeReviewsOf sentimentsOf
  rw [filterMap_zip_neg_length (sentimentOf classify) reviews, List.countP_map]
  rfl

/-- C9: the issue counts in the returned list sum to at most the negative
count, and a negative review matching no keyword leaves the tally
unchanged. -/
theorem issue_counts_le_negative :
    (∀ (classify : String → Option Label) (reviews : List Review) (t p n u : Nat)
        (iss : List (String × Nat)),
      analyzeReviews classify reviews = Except.ok (AnalysisResult.full t p n u iss) →
      sumCounts iss ≤ n) ∧
    (∀ (acc : List (String × Nat)) (r : Review) (rest : List Review) (c : String),
      r.content = some c → classifyIssue (strLower c) = none →
      tallyGo acc (r :: rest) = tallyGo acc rest) := by
  constructor
  · intro classify reviews t p n u iss h
    obtain ⟨tl, htl, -, -, hn, -, hiss⟩ :=
      analyzeReviews_full_elim classify reviews t p n u iss h
    have h1 : sumCounts iss ≤ sumCounts (sortDesc tl) := by
      rw [hiss]; exact sumCounts_take_le 5 (sortDesc tl)
    rw [sumCounts_sortDesc] at h1
    have h2 : sumCounts tl ≤ sumCounts [] + (negativeReviewsOf classify reviews).length :=
      tallyGo_sum_le (negativeReviewsOf classify reviews) [] tl htl
    rw [length_negativeReviews] at h2
    have h0 : sumCounts ([] : List (String × Nat)) = 0 := rfl
    rw [h0, Nat.zero_add] at h2
    omega
  · intro acc r rest c hc hci
    simp [tallyGo, hc, hci]

/-- Witness for C9: two tied issues sum to 2 ≤ 2 negatives; a matchless
negative review is skipped by the tally. -/
theorem issue_counts_le_negative_w :
    sumCounts [("delivery", 1), ("quality", 1)] ≤ 2 ∧
    tallyGo [] [mkR "meh"] = tallyGo [] [] := by
  constructor
  · exact issue_counts_le_negative.1 (fun _ => some Label.NEGATIVE)
      [mkR "Late delivery", mkR "Poor quality"] 2 0 2 0
      [("delivery", 1), ("quality", 1)] (by rfl)
  · exact issue_counts_le_negative.2 [] (mkR "meh") [] "meh" rfl (by decide)

/-- Reviews selected as NEGATIVE always carry a present content: an absent
content is defaulted to NEUTRAL inside the classification `try` block. -/
lemma negativeReviews_content_some (classify : String → Option Label) (reviews : List Review) :
    ∀ r ∈ negativeReviewsOf classify reviews, r.content ≠ none := by
  intro r hr
  unfold negativeReviewsOf at hr
  rw [List.mem_filterMap] at hr
  obtain ⟨⟨a, b⟩, hmem, hab⟩ := hr
  cases hb : (b == Label.NEGATIVE) with
  | false => rw [hb] at hab; simp at hab
  | true =>
    rw [hb] at hab
    simp only [if_true] at hab
    have har : a = r := by simpa using hab
    subst har
    have hba : b = sentimentOf classify a := pair_mem_zip_map (sentimentOf classify) reviews a b hmem
    have hbneg : b = Label.NEGATIVE := by simpa using hb
    cases hcon : a.content with
    | none =>
      rw [hbneg] at hba
      unfold sentimentOf at hba
      rw [hcon] at hba
      exact absurd hba (by simp)
    | some c => simp [hcon]

/-- The issue loop succeeds on any review list whose contents are all
present. -/
lemma tallyGo_ok_of_content : ∀ (L : List Review) (acc : List (String × Nat)),
    (∀ r ∈ L, r.content ≠ none) → ∃ tl, tallyGo acc L = Except.ok tl := by
  intro L
  induction L with
  | nil => intro acc _; exact ⟨acc, rfl⟩
  | cons r rest ih =>
    intro acc hL
    have hr : r.content ≠ none := hL r (by simp)
    cases hc : r.content with
    | none => exact absurd hc hr
    | some c =>
      have hrest : ∀ x ∈ rest, x.content ≠ none := fun x hx => hL x (by simp [hx])
      cases hci : classifyIssue (strLower c) with
      | some issue =>
        obtain ⟨tl, htl⟩ := ih (incrKey acc issue) hrest
        exact ⟨tl, by simp [tallyGo, hc, hci, htl]⟩
      | none =>
        obtain ⟨tl, htl⟩ := ih acc hrest
        exact ⟨tl, by simp [tallyGo, hc, hci, htl]⟩

/-- C10: every review reaching the issue-aggregation loop has a present
content, so the lower-casing step cannot fail and `analyze_reviews`
always returns normally. -/
theorem issue_loop_content_safe (classify : String → Option Label) (reviews : List Review) :
    (∀ r, r ∈ negativeReviewsOf classify reviews → r.content ≠ none) ∧
    ∃ res, analyzeReviews classify reviews = Except.ok res := by
  refine ⟨negativeReviews_content_some classify reviews, ?_⟩
  cases hemp : reviews.isEmpty with
  | true => exact ⟨AnalysisResult.empty, by simp [analyzeReviews, hemp]⟩
  | false =>
    obtain ⟨tl, htl⟩ := tallyGo_ok_of_content (negativeReviewsOf classify reviews) []
      (negativeReviews_content_some classify reviews)
    refine ⟨AnalysisResult.full reviews.length
      ((sentimentsOf classify reviews).countP (· == Label.POSITIVE))
      ((sentimentsOf classify reviews).countP (· == Label.NEGATIVE))
      (reviews.length - (sentimentsOf classify reviews).countP (· == Label.POSITIVE)
        - (sentimentsOf classify reviews).countP (· == Label.NEGATIVE))
      ((sortDesc tl).take 5), ?_⟩
    simp [analyzeReviews, hemp, tallyOf, htl]

/-- Witness for C10 at a one-review negative input. -/
theorem issue_loop_content_safe_w :
    (mkR "slow shipping").content ≠ none ∧
    ∃ res, analyzeReviews (fun _ => some Label.NEGATIVE) [mkR "slow shipping"]
      = Except.ok res := by
  have h := issue_loop_content_safe (fun _ => some Label.NEGATIVE) [mkR "slow shipping"]
  exact ⟨h.1 (mkR "slow shipping") (by decide), h.2⟩

/-- Membership in an `insertDesc` result. -/
lemma mem_insertDesc (x : String × Nat) :
    ∀ (m : List (String × Nat)) (b : String × Nat),
      b ∈ insertDesc x m → b = x ∨ b ∈ m := by
  intro m
  induction m with
  | nil => intro b hb; simp [insertDesc] at hb; exact Or.inl hb
  | cons y ys ih =>
    intro b hb
    by_cases h : y.2 ≤ x.2
    · simp only [insertDesc, if_pos h, List.mem_cons] at hb
      rcases hb with hb | hb | hb
      · exact Or.inl hb
      · exact Or.inr (by simp [hb])
      · exact Or.inr (by simp [hb])
    · simp only [insertDesc, if_neg h, List.mem_cons] at hb
      rcases hb with hb | hb
      · exact Or.inr (by simp [hb])
      · rcases ih b hb with hb' | hb'
        · exact Or.inl hb'
        · exact Or.inr (by simp [hb'])

/-- `insertDesc` keeps a count-descending list count-descending. -/
lemma pairwise_insertDesc (x : String × Nat) :
    ∀ m : List (String × Nat),
      List.Pairwise (fun a b : String × Nat => b.2 ≤ a.2) m →
      List.Pairwise (fun a b : String × Nat => b.2 ≤ a.2) (insertDesc x m) := by
  intro m
  induction m with
  | nil => intro _; simp [insertDesc]
  | cons y ys ih =>
    intro hm
    rw [List.pairwise_cons] at hm
    obtain ⟨hy, hys⟩ := hm
    by_cases h : y.2 ≤ x.2
    · rw [insertDesc, if_pos h]
      refine List.Pairwise.cons ?_ (List.Pairwise.cons hy hys)
      intro b hb
      rcases List.mem_cons.mp hb with rfl | hbys
      · exact h
      · exact Nat.le_trans (hy b hbys) h
    · rw [insertDesc, if_neg h]
      refine List.Pairwise.cons ?_ (ih hys)
      intro b hb
      rcases mem_insertDesc x ys b hb with rfl | hbys
      · omega
      · exact hy b hbys

/-- The sorted tally is count-descending. -/
lemma pairwise_sortDesc (l : List (String × Nat)) :
    List.Pairwise (fun a b : String × Nat => b.2 ≤ a.2) (sortDesc l) := by
  induction l with
  | nil => simp [sortDesc]
  | cons x xs ih => exact pairwise_insertDesc x (sortDesc xs) ih

/-- Entries of any one count pass through `insertDesc` in order: `x` goes
in front of them exactly when it carries that count, because every entry
it is placed behind has a strictly larger count. -/
lemma filter_insertDesc (c : Nat) (x : String × Nat) :
    ∀ m : List (String × Nat),
      (insertDesc x m).filter (fun e => e.2 == c)
        = (if x.2 == c then [x] else []) ++ m.filter (fun e => e.2 == c) := by
  intro m
  induction m with
  | nil =>
    rw [insertDesc]
    cases hx : (x.2 == c) <;> simp [List.filter, hx]
  | cons y ys ih =>
    by_cases h : y.2 ≤ x.2
    · rw [insertDesc, if_pos h]
      cases hx : (x.2 == c) <;> simp [List.filter_cons, hx]
    · rw [insertDesc, if_neg h]
      rw [List.filter_cons, List.filter_cons, ih]
      cases hx : (x.2 == c) with
      | false => simp [hx]
      | true =>
        have hxc : x.2 = c := by simpa using hx
        have hyc : (y.2 == c) = false := by
          simp only [beq_eq_false_iff_ne, ne_eq]
          omega
        simp [hx, hyc]

/-- Stability of the sort: the entries carrying any one count appear in
the sorted tally in exactly their original (first-increment) order. -/
lemma filter_sortDesc (c : Nat) :
    ∀ l : List (String × Nat),
      (sortDesc l).filter (fun e => e.2 == c) = l.filter (fun e => e.2 == c) := by
  intro l
  induction l with
  | nil => rfl
  | cons x xs ih =>
    show (insertDesc x (sortDesc xs)).filter (fun e => e.2 == c)
      = (x :: xs).filter (fun e => e.2 == c)
    rw [filter_insertDesc, ih, List.filter_cons]
    cases hx : (x.2 == c) <;> simp [hx]

/-- C2 counterexample: with both reviews NEGATIVE and tied at count 1, the
issue list comes out `delivery` before `quality` — the first-increment
order of the tally — although `quality` precedes `delivery` in the
declared keyword taxonomy. -/
theorem issues_tie_order_cex :
    analyzeReviews (fun _ => some Label.NEGATIVE) [mkR "Late delivery", mkR "Poor quality"]
      = Except.ok (AnalysisResult.full 2 0 2 0 [("delivery", 1), ("quality", 1)]) ∧
    (issueKeywords.map Prod.fst).indexOf "quality"
      < (issueKeywords.map Prod.fst).indexOf "delivery" :=
  ⟨by rfl, by decide⟩

/-- C2 amended: the issue list holds at most 5 entries, is sorted by count
descending, and ties keep the tally's first-increment order (the order
categories were first counted among negative reviews), which need not be
the taxonomy's declared order. -/
theorem issues_sorted_top5_stable (classify : String → Option Label) (reviews : List Review)
    (t p n u : Nat) (iss tl : List (String × Nat)) (c : Nat)
    (h : analyzeReviews classify reviews = Except.ok (AnalysisResult.full t p n u iss))
    (htl : tallyOf classify reviews = Except.ok tl) :
    iss.length ≤ 5 ∧
    List.Pairwise (fun a b : String × Nat => b.2 ≤ a.2) iss ∧
    iss = (sortDesc tl).take 5 ∧
    (sortDesc tl).filter (fun e => e.2 == c) = tl.filter (fun e => e.2 == c) := by
  obtain ⟨tl', htl', -, -, -, -, hiss⟩ :=
    analyzeReviews_full_elim classify reviews t p n u iss h
  have htleq : tl' = tl := by
    rw [htl] at htl'
    exact (Except.ok.injEq _ _).mp htl'.symm
  subst htleq
  refine ⟨?_, ?_, hiss, filter_sortDesc c tl'⟩
  · rw [hiss]
    have := List.length_take 5 (sortDesc tl')
    omega
  · rw [hiss]
    exact (pairwise_sortDesc tl').sublist (List.take_sublist 5 (sortDesc tl'))

/-- Witness for the amended C2 at the tied two-issue input. -/
theorem issues_sorted_top5_stable_w :
    ([("delivery", 1), ("quality", 1)] : List (String × Nat)).length ≤ 5 ∧
    List.Pairwise (fun a b : String × Nat => b.2 ≤ a.2)
      [(("delivery" : String), 1), ("quality", 1)] ∧
    ([("delivery", 1), ("quality", 1)] : List (String × Nat))
      = (sortDesc [("delivery", 1), ("quality", 1)]).take 5 ∧
    (sortDesc [("delivery", 1), ("quality", 1)]).filter (fun e => e.2 == 1)
      = ([("delivery", 1), ("quality", 1)] : List (String × Nat)).filter (fun e => e.2 == 1) :=
  issues_sorted_top5_stable (fun _ => some Label.NEGATIVE)
    [mkR "Late delivery", mkR "Poor quality"] 2 0 2 0
    [("delivery", 1), ("quality", 1)] [("delivery", 1), ("quality", 1)] 1
    (by rfl) (by rfl)

example : classifyIssue (strLower "Late delivery") = some "delivery" := by decide

example : classifyIssue (strLower "bad Quality and high price") = some "quality" := by decide

example : analyzeReviews (fun _ => some Label.NEGATIVE) [mkR "Late delivery", mkR "Poor quality"]
    = Except.ok (AnalysisResult.full 2 0 2 0 [("delivery", 1), ("quality", 1)]) := by rfl
